import Mathlib

/-!
Verification of the `EntitySet` core of HyperNetX
(`hypernetx/classes/entityset.py`).

The development shallowly embeds the data model and the operations of the
`EntitySet` class: the constructor's column restriction, cell properties and
their merge semantics, the memberships accessor and the seeding performed by
`restrict_to_levels`, weight re-aggregation under level restriction, and
`collapse_identical_elements`.

Modelling conventions:
* a data-table row is a tuple of string labels plus an integer cell weight;
* a pandas `frozenset` of labels is represented by its canonical form, the
  lexicographically sorted duplicate-free list of its members (two frozensets
  are equal iff their canonical forms are equal);
* `groupby(col)` with the pandas default `sort=True` enumerates group keys in
  ascending order while preserving the within-group row order, and is embedded
  accordingly;
* association lists stand for pandas Series / Python dicts; all observations
  about them go through `alookup` (first match wins, as for a unique index).
-/

/-- First-occurrence deduplication: keeps the first copy of every element, in
order of first appearance.  This is the key order produced by grouping
operations that do not sort (`sort=False` semantics / dict key order). -/
def firstDedup {α : Type} [DecidableEq α] : List α → List α
  | [] => []
  | a :: l => a :: (firstDedup l).filter (fun x => x ≠ a)

theorem mem_firstDedup {α : Type} [DecidableEq α] {a : α} :
    ∀ {l : List α}, a ∈ firstDedup l ↔ a ∈ l := by
  intro l
  induction l with
  | nil => simp [firstDedup]
  | cons b l ih =>
    by_cases hab : a = b
    · subst hab; simp [firstDedup]
    · simp [firstDedup, List.mem_filter, hab, ih]

theorem nodup_firstDedup {α : Type} [DecidableEq α] : ∀ l : List α, (firstDedup l).Nodup := by
  intro l
  induction l with
  | nil => simp [firstDedup]
  | cons b l ih =>
    simp only [firstDedup, List.nodup_cons]
    refine ⟨fun hmem => ?_, ih.filter _⟩
    have := (List.mem_filter.mp hmem).2
    simp at this

theorem firstDedup_eq_self {α : Type} [DecidableEq α] :
    ∀ {l : List α}, l.Nodup → firstDedup l = l := by
  intro l
  induction l with
  | nil => intro _; rfl
  | cons b l ih =>
    intro h
    rcases List.nodup_cons.mp h with ⟨hb, hl⟩
    rw [firstDedup, ih hl, List.filter_eq_self.mpr]
    intro x hx
    simp only [ne_eq, decide_eq_true_eq]
    rintro rfl; exact hb hx

/-- Lexicographic comparison of character lists by code point; this is the
comparison Python applies when pandas sorts string group keys. -/
def charListLe : List Char → List Char → Bool
  | [], _ => true
  | _ :: _, [] => false
  | a :: as, b :: bs =>
    if a.toNat < b.toNat then true
    else if b.toNat < a.toNat then false
    else charListLe as bs

/-- Lexicographic comparison of strings by code point. -/
def strLe (a b : String) : Bool := charListLe a.data b.data

/-- The sorting relation used when embedding sorted pandas group keys. -/
def strLeR (a b : String) : Prop := strLe a b = true

instance : DecidableRel strLeR := fun _ _ => inferInstanceAs (Decidable (_ = true))

theorem charListLe_total : ∀ as bs : List Char,
    charListLe as bs = true ∨ charListLe bs as = true := by
  intro as
  induction as with
  | nil => intro bs; left; rfl
  | cons x xs ih =>
    intro bs
    cases bs with
    | nil => right; rfl
    | cons y ys =>
      rcases Nat.lt_trichotomy x.toNat y.toNat with h | h | h
      · left; simp [charListLe, h]
      · rcases ih ys with h2 | h2 <;> [left; right] <;>
          simp [charListLe, h, h2, Nat.lt_irrefl]
      · right; simp [charListLe, h, Nat.lt_asymm h]

theorem charListLe_trans : ∀ as bs cs : List Char,
    charListLe as bs = true → charListLe bs cs = true → charListLe as cs = true := by
  intro as
  induction as with
  | nil => intro bs cs _ _; rfl
  | cons x xs ih =>
    intro bs cs h1 h2
    cases bs with
    | nil => simp [charListLe] at h1
    | cons y ys =>
      cases cs with
      | nil => simp [charListLe] at h2
      | cons z zs =>
        simp only [charListLe] at h1 h2 ⊢
        rcases Nat.lt_trichotomy x.toNat y.toNat with hxy | hxy | hxy
        · rcases Nat.lt_trichotomy y.toNat z.toNat with hyz | hyz | hyz
          · simp [Nat.lt_trans hxy hyz]
          · have hxz : x.toNat < z.toNat := by rw [← hyz]; exact hxy
            simp [hxz]
          · simp [hyz, Nat.lt_asymm hyz] at h2
        · rcases Nat.lt_trichotomy y.toNat z.toNat with hyz | hyz | hyz
          · have hxz : x.toNat < z.toNat := by rw [hxy]; exact hyz
            simp [hxz]
          · have hxz : x.toNat = z.toNat := hxy.trans hyz
            simp only [hxy, hyz, Nat.lt_irrefl, if_false] at h1 h2
            simp only [hxz, Nat.lt_irrefl, if_false]
            exact ih ys zs h1 h2
          · simp [hyz, Nat.lt_asymm hyz] at h2
        · simp [hxy, Nat.lt_asymm hxy] at h1

instance : IsTotal String strLeR := ⟨fun a b => charListLe_total a.data b.data⟩

instance : IsTrans String strLeR :=
  ⟨fun a b c h1 h2 => charListLe_trans a.data b.data c.data h1 h2⟩

/-- Canonical form of a pandas `frozenset` or sorted group-key index built from
a list of string labels: sort lexicographically after removing duplicates. -/
def sortDedup (xs : List String) : List String :=
  List.insertionSort strLeR (firstDedup xs)

theorem mem_sortDedup {a : String} {xs : List String} : a ∈ sortDedup xs ↔ a ∈ xs := by
  rw [sortDedup, (List.perm_insertionSort strLeR (firstDedup xs)).mem_iff, mem_firstDedup]

theorem nodup_sortDedup (xs : List String) : (sortDedup xs).Nodup :=
  (List.perm_insertionSort strLeR (firstDedup xs)).nodup_iff.mpr (nodup_firstDedup xs)

theorem sorted_sortDedup (xs : List String) : (sortDedup xs).Sorted strLeR :=
  List.sorted_insertionSort strLeR (firstDedup xs)

/-- First-match lookup in an association list; embeds lookup in a Python dict
or in a pandas Series with a unique index. -/
def alookup {κ β : Type} [DecidableEq κ] (k : κ) : List (κ × β) → Option β
  | [] => none
  | kv :: rest => if kv.1 = k then some kv.2 else alookup k rest

/-- Right-biased union of two option values. -/
def oOr {β : Type} (a b : Option β) : Option β :=
  match a with
  | some v => some v
  | none => b

theorem alookup_append {κ β : Type} [DecidableEq κ] (k : κ) (A B : List (κ × β)) :
    alookup k (A ++ B) = oOr (alookup k A) (alookup k B) := by
  induction A with
  | nil => simp [alookup, oOr]
  | cons kv rest ih =>
    by_cases h : kv.1 = k <;> simp [alookup, h, ih, oOr]

/-- Key-wise merge of two association lists: keys in both are combined with
`f` (existing value first), keys in only one side are kept as-is. -/
def mergeAssoc {κ β : Type} [DecidableEq κ] (f : β → β → β)
    (old new : List (κ × β)) : List (κ × β) :=
  old.map (fun kv =>
    (kv.1, match alookup kv.1 new with
           | some w => f kv.2 w
           | none => kv.2))
  ++ new.filter (fun kv => (alookup kv.1 old).isNone)

theorem alookup_map_merge {κ β : Type} [DecidableEq κ] (f : β → β → β)
    (old new : List (κ × β)) (k : κ) :
    alookup k (old.map (fun kv =>
        (kv.1, match alookup kv.1 new with
               | some w => f kv.2 w
               | none => kv.2))) =
      (alookup k old).map (fun v => match alookup k new with
                                    | some w => f v w
                                    | none => v) := by
  induction old with
  | nil => simp [alookup]
  | cons kv rest ih =>
    by_cases h : kv.1 = k
    · subst h; simp [alookup, ih]
    · simp [alookup, h, ih]

theorem alookup_filter_isNone {κ β : Type} [DecidableEq κ]
    (old new : List (κ × β)) (k : κ) :
    alookup k (new.filter (fun kv => (alookup kv.1 old).isNone)) =
      if (alookup k old).isNone then alookup k new else none := by
  induction new with
  | nil => simp [alookup]
  | cons kv rest ih =>
    by_cases hk : kv.1 = k
    · subst hk
      by_cases ho : (alookup kv.1 old).isNone <;>
        simp [List.filter_cons, alookup, ho, ih]
    · by_cases ho : (alookup kv.1 old).isNone <;>
        simp [List.filter_cons, alookup, hk, ho, ih]

theorem alookup_mergeAssoc {κ β : Type} [DecidableEq κ] (f : β → β → β)
    (old new : List (κ × β)) (k : κ) :
    alookup k (mergeAssoc f old new) =
      match alookup k old, alookup k new with
      | some v, some w => some (f v w)
      | some v, none => some v
      | none, _ => alookup k new := by
  rw [mergeAssoc, alookup_append, alookup_map_merge, alookup_filter_isNone]
  cases ho : alookup k old <;> cases hn : alookup k new <;> simp [oOr, ho, hn]

/-! ## Data model of `EntitySet` -/

/-- Property mapping of one item or cell: property name to property value
(values are opaque and represented by strings). -/
abbrev PropMap := List (String × String)

/-- Cell properties: pandas Series with a `MultiIndex` of
(level-0 item, level-1 item) pairs, each entry a dict of properties
(`EntitySet._cell_properties`). -/
abbrev CellProps := List ((String × String) × PropMap)

/-- Doubly-nested dict `{level-0 item: {level-1 item: {name: value}}}`, the
argument format of `assign_cell_properties` and of the constructor. -/
abbrev NestedProps := List (String × List (String × PropMap))

/-- Memberships view: dict `{level-1 item: list of level-0 items}`. -/
abbrev Memberships := List (String × List String)

/-- One row of the canonical data table: one label per level plus the cell
weight of the row. -/
structure Row where
  items : List String
  weight : Int
deriving DecidableEq

/-- State of an `EntitySet` instance: the underlying data table, its
dimensionality (`Entity.dimsize`, the number of data columns), the
`_state_dict["memberships"]` cache, and `_cell_properties` (which is a Series
when `dimsize == 2` and `None` otherwise). -/
structure EntitySet where
  table : List Row
  dimsize : Nat
  stateMemberships : Option Memberships
  cellProps : Option CellProps
deriving DecidableEq

/-- Modelled from the spec: the base dual-view computation of
`Entity.memberships` (the `Entity` base class is not under `src/`): each
level-1 item (second column) maps to the ordered collection of level-0 items
(first column) appearing with it in a row of the table, items listed in
first-appearance order without duplicates. -/
def dualView (t : List Row) : Memberships :=
  (firstDedup (t.map (fun r => r.items.getD 1 ""))).map
    (fun n => (n, firstDedup
      ((t.filter (fun r => r.items.getD 1 "" = n)).map (fun r => r.items.getD 0 ""))))

/-- The `EntitySet.memberships` property (entityset.py lines 152-176): for
1-dimensional data it returns the raw `_state_dict` cache, otherwise it
delegates to the base dual-view computation. -/
def EntitySet.memberships (s : EntitySet) : Option Memberships :=
  if s.dimsize = 1 then s.stateMemberships else some (dualView s.table)

/-- The `EntitySet._create_cell_properties` helper (entityset.py lines
237-268): flatten a nested dict into one Series entry per
(level-0 item, level-1 item) pair found in the dict; `None` (or an absent
dict) yields the empty Series. -/
def create_cell_properties (props : Option NestedProps) : CellProps :=
  (props.getD []).flatMap (fun em => em.2.map (fun npm => ((em.1, npm.1), npm.2)))

/-- Modelled from the spec: `update_properties` from
`hypernetx/classes/helpers.py` is not under `src/`.  Per the spec, the merge
is by key: for pairs present in both, the incoming property mapping overlays
the existing one key-wise (incoming value wins per property name, not
wholesale replacement); pairs present in only one side are kept as-is. -/
def update_properties (old incoming : CellProps) : CellProps :=
  mergeAssoc (fun pm pmIn => mergeAssoc (fun _ w => w) pm pmIn) old incoming

/-- The body of `assign_cell_properties` once the `dimsize == 2` guard has
passed (entityset.py lines 286-297): build a fresh cell-property table from
the given props and, if the existing table is non-empty, merge the fresh
entries into it with `update_properties`. -/
def applyProps (cp fresh : CellProps) : CellProps :=
  if cp.isEmpty then fresh else update_properties cp fresh

/-- The `EntitySet.assign_cell_properties` method (entityset.py lines
270-297).  A no-op unless `dimsize == 2`.  When `dimsize == 2` the class
invariant gives `cellProps = some cp`; on the unreachable `none` state the
Python code would raise before mutating anything, so the state is returned
unchanged. -/
def EntitySet.assign_cell_properties (s : EntitySet) (props : NestedProps) : EntitySet :=
  if s.dimsize = 2 then
    match s.cellProps with
    | some cp => { s with cellProps := some (applyProps cp (create_cell_properties (some props))) }
    | none => s
  else s

/-- The `EntitySet.cell_properties` property (entityset.py lines 141-150). -/
def EntitySet.cell_properties (s : EntitySet) : Option CellProps :=
  s.cellProps

/-- Aggregation methods for cell weights of duplicate rows (the integer-valued
subset of pandas aggregations named in the spec; `mean`/`median` are omitted
as they are not integer-valued and no claim concerns them). -/
inductive Agg
  | sum
  | count
  | first
  | last
deriving DecidableEq

/-- Apply an aggregation method to the weights of one group of rows. -/
def aggVals : Agg → List Int → Int
  | .sum, ws => ws.sum
  | .count, ws => ws.length
  | .first, ws => ws.headD 1
  | .last, ws => ws.getLastD 1

/-- Projection of a row onto a subset of levels, in the requested order. -/
def projRow (levels : List Nat) (r : Row) : List String :=
  levels.map (fun l => r.items.getD l "")

/-- Modelled from the spec: `Entity.restrict_to_levels` (the `Entity` base
class is not under `src/`).  Per the spec it projects the table onto the
requested levels, drops rows that become duplicates after projection, and
sets each remaining cell weight to the `aggregateby`-aggregate of the weights
of all original rows projecting onto it when `weights` is true, and to 1 when
`weights` is false or `aggregateby` is null.  The result is a fresh instance
whose dimensionality is the number of requested levels; as in the `EntitySet`
constructor, its cell-property table is the empty Series exactly when the new
dimensionality is 2. -/
def entityRestrictToLevels (s : EntitySet) (levels : List Nat) (weights : Bool)
    (aggregateby : Option Agg) : EntitySet :=
  { table := (firstDedup (s.table.map (projRow levels))).map (fun k =>
      { items := k,
        weight :=
          if weights then
            match aggregateby with
            | some a => aggVals a ((s.table.filter (fun r => projRow levels r = k)).map Row.weight)
            | none => 1
          else 1 }),
    dimsize := levels.length,
    stateMemberships := none,
    cellProps := if levels.length = 2 then some [] else none }

/-- The `EntitySet.restrict_to_levels` method (entityset.py lines 178-215):
delegate to the base restriction, then, if `keep_memberships`, seed the new
instance's `_state_dict["memberships"]` cache from the original instance's
`memberships` property. -/
def EntitySet.restrict_to_levels (s : EntitySet) (levels : List Nat) (weights : Bool)
    (aggregateby : Option Agg) (keep_memberships : Bool) : EntitySet :=
  let restricted := entityRestrictToLevels s levels weights aggregateby
  if keep_memberships then { restricted with stateMemberships := s.memberships }
  else restricted

/-- Tail of the `EntitySet` constructor (entityset.py lines 122-139): the
`Entity` base constructor has produced the canonical table and its
dimensionality; then `_cell_properties` is set to a Series built from the
`cell_properties` argument when the data is 2-dimensional and to `None`
otherwise. -/
def EntitySet.ofData (dim : Nat) (rows : List Row) (cpIn : Option NestedProps) : EntitySet :=
  { table := rows,
    dimsize := dim,
    stateMemberships := none,
    cellProps := if dim = 2 then some (create_cell_properties cpIn) else none }

/-! ## `collapse_identical_elements` (entityset.py lines 299-351)

The method works on the two data columns only (weights are dropped).  Its
first `groupby` groups the table rows by the level-0 column and aggregates the
level-1 column of each group into a frozenset; with the pandas default
`sort=True` the resulting frame lists one row per distinct level-0 label, in
ascending label order.  Its second `groupby` groups that frame by the
frozenset column and aggregates the level-0 names of each group into the
representative label and (optionally) the list of the group's names, both in
the within-group order inherited from the first frame, i.e. ascending label
order.  Both final results are converted with `to_dict`, so the order of the
classes themselves carries no information and the embedding enumerates the
classes in first-occurrence order of their signatures. -/

/-- The distinct level-0 labels of a two-column table, in ascending order:
the group keys of the first (sorted) `groupby`. -/
def lvl0Keys (t : List (String × String)) : List String :=
  sortDedup (t.map Prod.fst)

/-- The signature of a level-0 item: the frozenset (canonical form) of the
level-1 items appearing with it in the table. -/
def signature (t : List (String × String)) (e : String) : List String :=
  sortDedup ((t.filter (fun r => r.1 = e)).map Prod.snd)

/-- The intermediate frame of `collapse_identical_elements`: one row per
distinct level-0 label (ascending), with its frozenset of level-1 items. -/
def groupLevel0 (t : List (String × String)) : List (String × List String) :=
  (lvl0Keys t).map (fun e => (e, signature t e))

/-- The groups of the second `groupby`: each distinct signature paired with
the level-0 labels sharing it, the labels in the within-group order inherited
from the intermediate frame (ascending label order). -/
def collapseClasses (t : List (String × String)) : List (List String × List String) :=
  (firstDedup ((groupLevel0 t).map Prod.snd)).map
    (fun sg => (sg, ((groupLevel0 t).filter (fun p => p.2 = sg)).map Prod.fst))

/-- The synthesized representative label of an equivalence class:
`f"{x.iloc[0]}: {len(x)}"` over the group's level-0 names. -/
def repLabel (names : List String) : String :=
  names.headD "" ++ ": " ++ toString names.length

/-- The collapsed system of sets (`new_entity_dict`): representative label to
signature. -/
def collapsedDict (t : List (String × String)) : List (String × List String) :=
  (collapseClasses t).map (fun p => (repLabel p.2, p.1))

/-- The optional second return value (`equivalence_classes`): representative
label to the list of the class's level-0 labels. -/
def equivalenceClasses (t : List (String × String)) : List (String × List String) :=
  (collapseClasses t).map (fun p => (repLabel p.2, p.2))

/-- The two data columns of an `EntitySet`'s table
(`self._dataframe[self._data_cols]`). -/
def EntitySet.dataPairs (s : EntitySet) : List (String × String) :=
  s.table.map (fun r => (r.items.getD 0 "", r.items.getD 1 ""))

/-- The `EntitySet.collapse_identical_elements` method: the collapsed system
of sets together with the equivalence-class mapping that is returned when
`return_equivalence_classes=True`. -/
def EntitySet.collapse_identical_elements (s : EntitySet) :
    List (String × List String) × List (String × List String) :=
  (collapsedDict s.dataPairs, equivalenceClasses s.dataPairs)

theorem filter_map_comm {α β : Type} (f : α → β) (p : β → Bool) :
    ∀ l : List α, (l.map f).filter p = (l.filter (fun a => p (f a))).map f := by
  intro l
  induction l with
  | nil => rfl
  | cons a l ih =>
    by_cases h : p (f a) <;> simp [List.filter_cons, h, ih]

/-- The class of a signature consists of exactly the distinct level-0 labels
carrying that signature, in ascending order. -/
theorem collapseClasses_names (t : List (String × String)) (sg : List String) :
    ((groupLevel0 t).filter (fun p => p.2 = sg)).map Prod.fst =
      (lvl0Keys t).filter (fun e => signature t e = sg) := by
  rw [groupLevel0, filter_map_comm, List.map_map]
  exact List.map_id _

theorem lvl0Keys_sorted (t : List (String × String)) : (lvl0Keys t).Sorted strLeR :=
  sorted_sortDedup _

/-- Claim C1 (amended): the names of every equivalence class are listed in
ascending (lexicographic) label order — the order produced by the sorted
`groupby` on the level-0 column, not the order of first appearance in the
table — the class consists of exactly the distinct level-0 labels with the
class's signature, and the representative label is
`"<ascending-least label of the class>: <class size>"`. -/
theorem collapse_class_sorted_rep (t : List (String × String)) (sg names : List String)
    (h : (sg, names) ∈ collapseClasses t) :
    names.Sorted strLeR ∧ names.Nodup ∧ names ≠ [] ∧
    (∀ e, e ∈ names ↔ (e ∈ t.map Prod.fst ∧ signature t e = sg)) ∧
    (names.headD "" ++ ": " ++ toString names.length, names) ∈ equivalenceClasses t ∧
    (names.headD "" ++ ": " ++ toString names.length, sg) ∈ collapsedDict t := by
  obtain ⟨sg', hsg', heq⟩ := List.mem_map.mp h
  obtain ⟨hsg, hnames⟩ := Prod.mk.injEq .. ▸ heq
  subst hsg
  have hnames' : names = (lvl0Keys t).filter (fun e => signature t e = sg') := by
    rw [← hnames, collapseClasses_names]
  have hmm : ∀ e, e ∈ names ↔ (e ∈ t.map Prod.fst ∧ signature t e = sg') := by
    intro e
    rw [hnames', List.mem_filter, lvl0Keys, mem_sortDedup, decide_eq_true_eq]
  refine ⟨?_, ?_, ?_, hmm, ?_, ?_⟩
  · rw [hnames']; exact (lvl0Keys_sorted t).filter _
  · rw [hnames']; exact (nodup_sortDedup _).filter _
  · obtain ⟨p, hp, hp2⟩ := List.mem_map.mp (mem_firstDedup.mp hsg')
    obtain ⟨e, _, hpe⟩ := List.mem_map.mp hp
    have he : e ∈ names := by
      rw [hmm e]
      constructor
      · rw [lvl0Keys, mem_sortDedup] at *
        exact ‹e ∈ t.map Prod.fst›
      · rw [← hp2, ← hpe]
    exact List.ne_nil_of_mem he
  · have := List.mem_map_of_mem (fun p => (repLabel p.2, p.2)) h
    simpa [equivalenceClasses, repLabel] using this
  · have := List.mem_map_of_mem (fun p => (repLabel p.2, p.1)) h
    simpa [collapsedDict, repLabel] using this

theorem filter_eq_singleton {α β : Type} [DecidableEq β] (f : α → β) :
    ∀ l : List α, l.Nodup → ∀ e0 ∈ l, (∀ e ∈ l, f e = f e0 → e = e0) →
      l.filter (fun e => f e = f e0) = [e0] := by
  intro l
  induction l with
  | nil => intro _ e0 h; simp at h
  | cons a l ih =>
    intro hnd e0 he0 huniq
    rcases List.nodup_cons.mp hnd with ⟨ha, hl⟩
    rcases List.mem_cons.mp he0 with rfl | he0l
    · rw [List.filter_cons_of_pos (by simp)]
      have hnil : l.filter (fun e => f e = f e0) = [] := by
        rw [List.filter_eq_nil_iff]
        intro e hel
        simp only [decide_eq_true_eq]
        intro hfe
        exact ha ((huniq e (List.mem_cons_of_mem _ hel) hfe) ▸ hel)
      rw [hnil]
    · have hfa : ¬ (f a = f e0) := fun hf => ha ((huniq a (List.mem_cons_self a l) hf) ▸ he0l)
      rw [List.filter_cons_of_neg (by simpa using hfa)]
      exact ih hl e0 he0l (fun e hel hfe => huniq e (List.mem_cons_of_mem _ hel) hfe)

/-- When the signatures of the distinct level-0 labels are pairwise distinct,
every class is the singleton of its label. -/
theorem collapseClasses_of_inj (t : List (String × String))
    (hinj : ∀ e1 ∈ t.map Prod.fst, ∀ e2 ∈ t.map Prod.fst,
      signature t e1 = signature t e2 → e1 = e2) :
    collapseClasses t = (lvl0Keys t).map (fun e => (signature t e, [e])) := by
  have hinj' : ∀ e1 ∈ lvl0Keys t, ∀ e2 ∈ lvl0Keys t,
      signature t e1 = signature t e2 → e1 = e2 := by
    intro e1 h1 e2 h2
    exact hinj e1 (mem_sortDedup.mp h1) e2 (mem_sortDedup.mp h2)
  have hnodup : ((lvl0Keys t).map (signature t)).Nodup :=
    (nodup_sortDedup _).map_on hinj'
  have hg : (groupLevel0 t).map Prod.snd = (lvl0Keys t).map (signature t) := by
    rw [groupLevel0, List.map_map]; rfl
  unfold collapseClasses
  rw [hg, firstDedup_eq_self hnodup, List.map_map]
  apply List.map_congr_left
  intro e he
  simp only [Function.comp_apply]
  rw [collapseClasses_names]
  congr 1
  exact filter_eq_singleton (signature t) (lvl0Keys t) (nodup_sortDedup _) e he
    (fun e2 h2 hf => hinj' e2 h2 e he hf)

/-- Claim C7: when every level-0 item's signature is unique, the collapsed
system of sets has exactly one group per distinct level-0 label of the input,
the groups carry exactly the input's signatures, and every equivalence class
has size 1. -/
theorem collapse_unique_signatures (t : List (String × String))
    (hinj : ∀ e1 ∈ t.map Prod.fst, ∀ e2 ∈ t.map Prod.fst,
      signature t e1 = signature t e2 → e1 = e2) :
    (collapsedDict t).length = (lvl0Keys t).length ∧
    (collapsedDict t).map Prod.snd = (groupLevel0 t).map Prod.snd ∧
    ∀ p ∈ collapseClasses t, p.2.length = 1 := by
  have hC := collapseClasses_of_inj t hinj
  refine ⟨?_, ?_, ?_⟩
  · rw [collapsedDict, hC, List.length_map, List.length_map]
  · simp only [collapsedDict, hC, groupLevel0, List.map_map]
    exact List.map_congr_left (fun e _ => rfl)
  · intro p hp
    rw [hC] at hp
    obtain ⟨e, _, rfl⟩ := List.mem_map.mp hp
    rfl

/-- Counterexample to claim C1 as stated: in the table the level-0 items
first appear in the order B, A, so first-encountered order predicts the
representative label "B: 2" and the class list ["B", "A"]; the code produces
"A: 2" and ["A", "B"], because the first `groupby` sorts the level-0 labels
(pandas default `sort=True`) before the representative and the class list
are aggregated. -/
theorem collapse_first_encountered_cex :
    equivalenceClasses [("B", "x"), ("A", "x")] = [("A: 2", ["A", "B"])] ∧
    ("B: 2", ["B", "A"]) ∉ equivalenceClasses [("B", "x"), ("A", "x")] ∧
    collapsedDict [("B", "x"), ("A", "x")] = [("A: 2", ["x"])] := by decide

theorem collapse_class_sorted_rep_witness :
    ((["x"], ["A", "B"]) ∈ collapseClasses [("B", "x"), ("A", "x")]) ∧
    ((["A", "B"] : List String).Sorted strLeR ∧ (["A", "B"] : List String).Nodup ∧
      (["A", "B"] : List String) ≠ [] ∧
      (∀ e, e ∈ (["A", "B"] : List String) ↔
        (e ∈ ([("B", "x"), ("A", "x")] : List (String × String)).map Prod.fst ∧
          signature [("B", "x"), ("A", "x")] e = ["x"])) ∧
      ((["A", "B"] : List String).headD "" ++ ": " ++
          toString (["A", "B"] : List String).length, ["A", "B"]) ∈
        equivalenceClasses [("B", "x"), ("A", "x")] ∧
      ((["A", "B"] : List String).headD "" ++ ": " ++
          toString (["A", "B"] : List String).length, ["x"]) ∈
        collapsedDict [("B", "x"), ("A", "x")]) :=
  ⟨by decide, collapse_class_sorted_rep [("B", "x"), ("A", "x")] ["x"] ["A", "B"] (by decide)⟩

theorem collapse_unique_signatures_witness :
    (∀ e1 ∈ ([("a", "x"), ("b", "y")] : List (String × String)).map Prod.fst,
      ∀ e2 ∈ ([("a", "x"), ("b", "y")] : List (String × String)).map Prod.fst,
      signature [("a", "x"), ("b", "y")] e1 = signature [("a", "x"), ("b", "y")] e2 →
        e1 = e2) ∧
    ((collapsedDict [("a", "x"), ("b", "y")]).length =
        (lvl0Keys [("a", "x"), ("b", "y")]).length ∧
      (collapsedDict [("a", "x"), ("b", "y")]).map Prod.snd =
        (groupLevel0 [("a", "x"), ("b", "y")]).map Prod.snd ∧
      ∀ p ∈ collapseClasses [("a", "x"), ("b", "y")], p.2.length = 1) :=
  ⟨by decide, collapse_unique_signatures [("a", "x"), ("b", "y")] (by decide)⟩

/-! ## Level restriction -/

theorem restrict_to_levels_table (s : EntitySet) (levels : List Nat) (w : Bool)
    (agg : Option Agg) (km : Bool) :
    (s.restrict_to_levels levels w agg km).table =
      (entityRestrictToLevels s levels w agg).table := by
  cases km <;> rfl

/-- Claim C3: projecting a 2-level structure to the single level 1 with
`keep_memberships=True` yields a structure whose memberships view is
identical to the original's: the result is 1-dimensional, so its
`memberships` property reads exactly the cache that `restrict_to_levels`
seeded from the original's memberships. -/
theorem restrict_to_level1_memberships (s : EntitySet) (w : Bool) (agg : Option Agg)
    (hdim : s.dimsize = 2) :
    (s.restrict_to_levels [1] w agg true).memberships = s.memberships := by
  simp [EntitySet.restrict_to_levels, EntitySet.memberships, entityRestrictToLevels]

theorem restrict_to_level1_memberships_witness :
    (EntitySet.ofData 2 [⟨["e", "n"], 1⟩] none).dimsize = 2 ∧
    ((EntitySet.ofData 2 [⟨["e", "n"], 1⟩] none).restrict_to_levels [1] false
        (some Agg.sum) true).memberships =
      (EntitySet.ofData 2 [⟨["e", "n"], 1⟩] none).memberships :=
  ⟨rfl, restrict_to_level1_memberships _ false (some Agg.sum) rfl⟩

/-- Counterexample to claim C2 as stated: restricting to BOTH levels
(`levels=[0, 1]`, two retained levels) with `keep_memberships=True` still
seeds the new instance's memberships cache from the original's memberships
(entityset.py line 213 runs whenever `keep_memberships` holds), although the
claim says the cache is seeded exactly when a single level is retained. -/
theorem restrict_two_levels_seeds_cache_cex :
    ((EntitySet.ofData 2 [⟨["e", "n"], 1⟩] none).restrict_to_levels [0, 1] false none
        true).stateMemberships = some [("n", ["e"])] ∧
    (EntitySet.ofData 2 [⟨["e", "n"], 1⟩] none).memberships = some [("n", ["e"])] := by
  decide

/-- Claim C2 (amended): whenever `keep_memberships=True` the restriction
seeds the result's memberships cache from the original instance's
`memberships` property, regardless of how many levels are retained (the
code's TODO acknowledges it assumes `levels=[1]`); however the `memberships`
accessor consults that cache only on 1-dimensional data, so when the number
of retained levels is not one, the result's memberships view still derives
from the projected table. -/
theorem restrict_seeds_memberships_cache (s : EntitySet) (levels : List Nat)
    (w : Bool) (agg : Option Agg) :
    ((s.restrict_to_levels levels w agg true).stateMemberships = s.memberships) ∧
    (levels.length ≠ 1 →
      (s.restrict_to_levels levels w agg true).memberships =
        some (dualView (entityRestrictToLevels s levels w agg).table)) := by
  constructor
  · simp [EntitySet.restrict_to_levels]
  · intro hlen
    simp [EntitySet.restrict_to_levels, EntitySet.memberships, entityRestrictToLevels, hlen]

theorem restrict_seeds_memberships_cache_witness :
    (((EntitySet.ofData 2 [⟨["e", "n"], 1⟩] none).restrict_to_levels [0, 1] false none
        true).stateMemberships = (EntitySet.ofData 2 [⟨["e", "n"], 1⟩] none).memberships) ∧
    (((EntitySet.ofData 2 [⟨["e", "n"], 1⟩] none).restrict_to_levels [0, 1] false none
        true).memberships =
      some (dualView (entityRestrictToLevels (EntitySet.ofData 2 [⟨["e", "n"], 1⟩] none)
        [0, 1] false none).table)) :=
  ⟨(restrict_seeds_memberships_cache (EntitySet.ofData 2 [⟨["e", "n"], 1⟩] none)
      [0, 1] false none).1,
   (restrict_seeds_memberships_cache (EntitySet.ofData 2 [⟨["e", "n"], 1⟩] none)
      [0, 1] false none).2 (by decide)⟩

/-- Claim C4: under restriction with `weights=True` and `aggregateby="sum"`,
every retained projected row's weight is the sum of the weights of all
original rows projecting onto it, and the retained rows are exactly the
distinct projections; with `weights=False`, or with `weights=True` but a null
`aggregateby`, every resulting weight is 1 regardless of prior weights. -/
theorem restrict_weight_aggregation (s : EntitySet) (levels : List Nat) (km : Bool) :
    (∀ r2 ∈ (s.restrict_to_levels levels true (some Agg.sum) km).table,
      r2.weight = ((s.table.filter (fun r => projRow levels r = r2.items)).map Row.weight).sum) ∧
    (∀ k, (∃ r2 ∈ (s.restrict_to_levels levels true (some Agg.sum) km).table, r2.items = k) ↔
      (∃ r ∈ s.table, projRow levels r = k)) ∧
    (∀ agg r2, r2 ∈ (s.restrict_to_levels levels false agg km).table → r2.weight = 1) ∧
    (∀ r2 ∈ (s.restrict_to_levels levels true none km).table, r2.weight = 1) := by
  refine ⟨?_, ?_, ?_, ?_⟩
  · intro r2 hr2
    rw [restrict_to_levels_table] at hr2
    simp only [entityRestrictToLevels, List.mem_map] at hr2
    obtain ⟨k, _, rfl⟩ := hr2
    simp [aggVals]
  · intro k
    rw [restrict_to_levels_table]
    simp only [entityRestrictToLevels, List.mem_map]
    constructor
    · rintro ⟨r2, ⟨k', hk', rfl⟩, hk⟩
      have hkk : k' = k := hk
      subst hkk
      exact List.mem_map.mp (mem_firstDedup.mp hk')
    · rintro ⟨r, hr, rfl⟩
      exact ⟨_, ⟨projRow levels r,
        mem_firstDedup.mpr (List.mem_map_of_mem _ hr), rfl⟩, rfl⟩
  · intro agg r2 hr2
    rw [restrict_to_levels_table] at hr2
    simp only [entityRestrictToLevels, List.mem_map] at hr2
    obtain ⟨k, _, rfl⟩ := hr2
    rfl
  · intro r2 hr2
    rw [restrict_to_levels_table] at hr2
    simp only [entityRestrictToLevels, List.mem_map] at hr2
    obtain ⟨k, _, rfl⟩ := hr2
    rfl

theorem restrict_weight_aggregation_witness :
    (Row.mk ["n"] 5) ∈
      ((EntitySet.ofData 2 [⟨["e", "n"], 2⟩, ⟨["f", "n"], 3⟩] none).restrict_to_levels
        [1] true (some Agg.sum) true).table ∧
    (Row.mk ["n"] 5).weight =
      (((EntitySet.ofData 2 [⟨["e", "n"], 2⟩, ⟨["f", "n"], 3⟩] none).table.filter
        (fun r => projRow [1] r = (Row.mk ["n"] 5).items)).map Row.weight).sum :=
  ⟨by decide,
   (restrict_weight_aggregation (EntitySet.ofData 2 [⟨["e", "n"], 2⟩, ⟨["f", "n"], 3⟩] none)
      [1] true).1 (Row.mk ["n"] 5) (by decide)⟩

/-! ## Cell properties -/

theorem oOr_none {β : Type} (a : Option β) : oOr a none = a := by
  cases a <;> rfl

theorem create_cell_properties_cons (em : String × List (String × PropMap))
    (rest : NestedProps) :
    create_cell_properties (some (em :: rest)) =
      em.2.map (fun npm => ((em.1, npm.1), npm.2)) ++ create_cell_properties (some rest) := by
  simp [create_cell_properties]

theorem alookup_flat_group (e p1 p2 : String) (m : List (String × PropMap)) :
    alookup (p1, p2) (m.map (fun npm => ((e, npm.1), npm.2))) =
      if e = p1 then alookup p2 m else none := by
  induction m with
  | nil => simp [alookup]
  | cons npm rest ih =>
    by_cases hh1 : e = p1
    · subst hh1
      by_cases hh2 : npm.1 = p2
      · simp [alookup, Prod.mk.injEq, hh2]
      · simp [alookup, Prod.mk.injEq, hh2, ih]
    · simp [alookup, Prod.mk.injEq, hh1, ih]

theorem alookup_flatten_notin (p1 p2 : String) :
    ∀ P : NestedProps, p1 ∉ P.map Prod.fst →
      alookup (p1, p2) (create_cell_properties (some P)) = none := by
  intro P
  induction P with
  | nil => intro _; rfl
  | cons em rest ih =>
    intro h
    rw [create_cell_properties_cons, alookup_append, alookup_flat_group]
    have hne : ¬ em.1 = p1 := by
      intro he; exact h (by simp [he])
    rw [if_neg hne, ih (fun hm => h (by simp [hm]))]
    rfl

/-- Lookup of a cell pair in the flattened Series built by
`_create_cell_properties` agrees with the nested-dict lookup, provided the
outer keys are distinct (as they are for a Python dict). -/
theorem alookup_create_cell_properties (p1 p2 : String) :
    ∀ P : NestedProps, (P.map Prod.fst).Nodup →
      alookup (p1, p2) (create_cell_properties (some P)) =
        (alookup p1 P).bind (fun m => alookup p2 m) := by
  intro P
  induction P with
  | nil => intro _; rfl
  | cons em rest ih =>
    intro hnd
    rw [List.map_cons] at hnd
    rcases List.nodup_cons.mp hnd with ⟨hem, hrest⟩
    rw [create_cell_properties_cons, alookup_append]
    obtain ⟨e, m⟩ := em
    rw [alookup_flat_group]
    by_cases hh1 : e = p1
    · rw [if_pos hh1, alookup, if_pos hh1, alookup_flatten_notin _ _ rest (hh1 ▸ hem)]
      show oOr (alookup p2 m) none = alookup p2 m
      exact oOr_none _
    · rw [if_neg hh1, alookup, if_neg hh1, ih hrest]
      rfl

theorem alookup_applyProps (cp fresh : CellProps) (p : String × String) :
    alookup p (applyProps cp fresh) =
      match alookup p cp, alookup p fresh with
      | some pm, some pmf => some (mergeAssoc (fun _ w => w) pm pmf)
      | some pm, none => some pm
      | none, _ => alookup p fresh := by
  rw [applyProps]
  by_cases hemp : cp.isEmpty
  · have hnil : cp = [] := by
      cases cp with
      | nil => rfl
      | cons a l => simp [List.isEmpty] at hemp
    subst hnil
    simp [alookup]
  · rw [if_neg hemp, update_properties, alookup_mergeAssoc]
    cases alookup p cp <;> cases alookup p fresh <;> rfl

/-- Observable property of one cell: the pair's property dict, queried at one
property name. -/
def cellPropAt (cp : CellProps) (p : String × String) (k : String) : Option String :=
  (alookup p cp).bind (fun pm => alookup k pm)

/-- The same observation on the nested-dict argument format. -/
def nestedPropAt (P : NestedProps) (p : String × String) (k : String) : Option String :=
  ((alookup p.1 P).bind (fun m => alookup p.2 m)).bind (fun pm => alookup k pm)

theorem cellPropAt_applyProps (cp fresh : CellProps) (p : String × String) (k : String) :
    cellPropAt (applyProps cp fresh) p k = oOr (cellPropAt fresh p k) (cellPropAt cp p k) := by
  unfold cellPropAt
  rw [alookup_applyProps]
  cases hc : alookup p cp with
  | none => cases hf : alookup p fresh with
    | none => rfl
    | some pmf => exact (oOr_none _).symm
  | some pm =>
    cases hf : alookup p fresh with
    | none => rfl
    | some pmf =>
      show alookup k (mergeAssoc (fun _ w => w) pm pmf) = oOr (alookup k pmf) (alookup k pm)
      rw [alookup_mergeAssoc]
      cases alookup k pm <;> cases alookup k pmf <;> rfl

theorem isSome_alookup_applyProps (cp fresh : CellProps) (p : String × String) :
    (alookup p (applyProps cp fresh)).isSome =
      ((alookup p cp).isSome || (alookup p fresh).isSome) := by
  rw [alookup_applyProps]
  cases hc : alookup p cp <;> cases hf : alookup p fresh <;> rfl

theorem alookup_create (P : NestedProps) (p : String × String)
    (hnd : (P.map Prod.fst).Nodup) :
    alookup p (create_cell_properties (some P)) =
      (alookup p.1 P).bind (fun m => alookup p.2 m) := by
  obtain ⟨pa, pb⟩ := p
  exact alookup_create_cell_properties pa pb P hnd

theorem cellPropAt_create (P : NestedProps) (p : String × String) (k : String)
    (hnd : (P.map Prod.fst).Nodup) :
    cellPropAt (create_cell_properties (some P)) p k = nestedPropAt P p k := by
  rw [cellPropAt, alookup_create P p hnd]
  rfl

theorem assign_cell_properties_state (s : EntitySet) (P : NestedProps) (cp : CellProps)
    (hdim : s.dimsize = 2) (hcp : s.cellProps = some cp) :
    s.assign_cell_properties P =
      { s with cellProps := some (applyProps cp (create_cell_properties (some P))) } := by
  simp [EntitySet.assign_cell_properties, hdim, hcp]

/-- Claim C6: assigning cell properties twice merges key-wise.  For every
pair and property name, the final value is the second assignment's value if
it sets the name for the pair, else the first assignment's, else the
pre-existing one — so disjoint property names for the same pair accumulate
(union) and an overlapping name is overwritten by the later assignment while
the other names survive; and a pair is present afterwards iff it was present
before or in either assignment, so pairs on only one side are kept as-is. -/
theorem assign_cell_properties_merge (s : EntitySet) (P1 P2 : NestedProps) (cp0 : CellProps)
    (hdim : s.dimsize = 2) (hcp : s.cellProps = some cp0)
    (h1 : (P1.map Prod.fst).Nodup) (h2 : (P2.map Prod.fst).Nodup) :
    ∃ cp2, ((s.assign_cell_properties P1).assign_cell_properties P2).cellProps = some cp2 ∧
      (∀ p k, cellPropAt cp2 p k =
        oOr (nestedPropAt P2 p k) (oOr (nestedPropAt P1 p k) (cellPropAt cp0 p k))) ∧
      (∀ p : String × String, (alookup p cp2).isSome =
        ((alookup p cp0).isSome ||
          ((alookup p.1 P1).bind (fun m => alookup p.2 m)).isSome ||
          ((alookup p.1 P2).bind (fun m => alookup p.2 m)).isSome)) := by
  have hs1 := assign_cell_properties_state s P1 cp0 hdim hcp
  have hdim1 : (s.assign_cell_properties P1).dimsize = 2 := by rw [hs1]; exact hdim
  have hcp1 : (s.assign_cell_properties P1).cellProps =
      some (applyProps cp0 (create_cell_properties (some P1))) := by rw [hs1]
  have hs2 := assign_cell_properties_state (s.assign_cell_properties P1) P2
    (applyProps cp0 (create_cell_properties (some P1))) hdim1 hcp1
  refine ⟨applyProps (applyProps cp0 (create_cell_properties (some P1)))
    (create_cell_properties (some P2)), by rw [hs2], ?_, ?_⟩
  · intro p k
    rw [cellPropAt_applyProps, cellPropAt_applyProps,
      cellPropAt_create P2 p k h2, cellPropAt_create P1 p k h1]
  · intro p
    rw [isSome_alookup_applyProps, isSome_alookup_applyProps,
      alookup_create P2 p h2, alookup_create P1 p h1]

theorem assign_cell_properties_merge_witness :
    ((EntitySet.ofData 2 [] none).dimsize = 2) ∧
    ((EntitySet.ofData 2 [] none).cellProps = some []) ∧
    ((([("e", [("n", [("a", "1")])])] : NestedProps).map Prod.fst).Nodup) ∧
    ((([("e", [("n", [("b", "2")])])] : NestedProps).map Prod.fst).Nodup) ∧
    (∃ cp2, (((EntitySet.ofData 2 [] none).assign_cell_properties
          [("e", [("n", [("a", "1")])])]).assign_cell_properties
          [("e", [("n", [("b", "2")])])]).cellProps = some cp2 ∧
      (∀ p k, cellPropAt cp2 p k =
        oOr (nestedPropAt [("e", [("n", [("b", "2")])])] p k)
          (oOr (nestedPropAt [("e", [("n", [("a", "1")])])] p k) (cellPropAt [] p k))) ∧
      (∀ p : String × String, (alookup p cp2).isSome =
        ((alookup p ([] : CellProps)).isSome ||
          ((alookup p.1 [("e", [("n", [("a", "1")])])]).bind (fun m => alookup p.2 m)).isSome ||
          ((alookup p.1 [("e", [("n", [("b", "2")])])]).bind (fun m => alookup p.2 m)).isSome))) :=
  ⟨rfl, rfl, by decide, by decide,
   assign_cell_properties_merge (EntitySet.ofData 2 [] none) _ _ [] rfl rfl
     (by decide) (by decide)⟩

/-- Claim C8: on a structure whose dimensionality is not 2 — as produced by
construction — the cell-property accessor returns None and
`assign_cell_properties` is a silent no-op leaving the instance's state
entirely unchanged. -/
theorem cell_ops_noop_non2dim (dim : Nat) (rows : List Row) (cpIn : Option NestedProps)
    (props : NestedProps) (hdim : dim ≠ 2) :
    (EntitySet.ofData dim rows cpIn).cell_properties = none ∧
    (EntitySet.ofData dim rows cpIn).assign_cell_properties props =
      EntitySet.ofData dim rows cpIn := by
  constructor
  · simp [EntitySet.ofData, EntitySet.cell_properties, hdim]
  · simp [EntitySet.assign_cell_properties, EntitySet.ofData, hdim]

theorem cell_ops_noop_non2dim_witness :
    ((1 : Nat) ≠ 2) ∧
    ((EntitySet.ofData 1 [] none).cell_properties = none ∧
      (EntitySet.ofData 1 [] none).assign_cell_properties [("e", [("n", [("a", "1")])])] =
        EntitySet.ofData 1 [] none) :=
  ⟨by decide, cell_ops_noop_non2dim 1 [] none [("e", [("n", [("a", "1")])])] (by decide)⟩

/-- Claim C10: the cell-property attribute is non-null exactly when the
dimensionality is 2: construction sets it to a (possibly empty) table when
`dimsize = 2` and to None otherwise — including the empty construction of
dimensionality 0 — `assign_cell_properties` never changes a null attribute
to non-null or vice versa, and instances produced by `restrict_to_levels`
satisfy the same invariant (their dimensionality is the number of retained
levels). -/
theorem cell_properties_iff_dim2 :
    (∀ dim rows cpIn, ((EntitySet.ofData dim rows cpIn).cellProps.isSome ↔ dim = 2)) ∧
    ((EntitySet.ofData 0 [] none).cellProps = none) ∧
    (∀ (s : EntitySet) props,
      (s.assign_cell_properties props).cellProps.isSome = s.cellProps.isSome) ∧
    (∀ (s : EntitySet) levels (w : Bool) (agg : Option Agg) (km : Bool),
      ((s.restrict_to_levels levels w agg km).cellProps.isSome ↔ levels.length = 2)) := by
  refine ⟨?_, by simp [EntitySet.ofData], ?_, ?_⟩
  · intro dim rows cpIn
    by_cases h : dim = 2 <;> simp [EntitySet.ofData, h]
  · intro s props
    by_cases h : s.dimsize = 2
    · cases hcp : s.cellProps <;> simp [EntitySet.assign_cell_properties, h, hcp]
    · simp [EntitySet.assign_cell_properties, h]
  · intro s levels w agg km
    by_cases h : levels.length = 2 <;> cases km <;>
      simp [EntitySet.restrict_to_levels, entityRestrictToLevels, h]

/-! ## Construction: column restriction and weight inheritance -/

/-- A DataFrame as the construction path observes it: column labels and rows
(cell values are opaque strings; the weight column's values are the cell
weights). -/
structure Frame where
  cols : List String
  rows : List (List String)
deriving DecidableEq

/-- Position of the first occurrence of an element in a list. -/
def idxOf {α : Type} [DecidableEq α] (a : α) : List α → Nat
  | [] => 0
  | b :: l => if b = a then 0 else idxOf a l + 1

theorem getD_idxOf {α : Type} [DecidableEq α] (d : α) :
    ∀ l : List α, ∀ a ∈ l, l.getD (idxOf a l) d = a := by
  intro l
  induction l with
  | nil => intro a ha; simp at ha
  | cons b l ih =>
    intro a ha
    by_cases h : b = a
    · simp [idxOf, h]
    · have ha' : a ∈ l := by
        rcases List.mem_cons.mp ha with rfl | h2
        · exact absurd rfl h
        · exact h2
      rw [idxOf, if_neg h, List.getD_cons_succ]
      exact ih a ha'

theorem getD_map_idxOf {α β : Type} [DecidableEq α] (f : α → β) (d : β) :
    ∀ l : List α, ∀ a ∈ l, (l.map f).getD (idxOf a l) d = f a := by
  intro l
  induction l with
  | nil => intro a ha; simp at ha
  | cons b l ih =>
    intro a ha
    by_cases h : b = a
    · simp [idxOf, h]
    · have ha' : a ∈ l := by
        rcases List.mem_cons.mp ha with rfl | h2
        · exact absurd rfl h
        · exact h2
      rw [idxOf, if_neg h, List.map_cons, List.getD_cons_succ]
      exact ih a ha'

/-- Value of a row under a column label (pandas label lookup on a unique
column index: position of the first occurrence of the label). -/
def valueAt (cols : List String) (r : List String) (c : String) : String :=
  r.getD (idxOf c cols) ""

/-- The column selection of `EntitySet.__init__` for DataFrame input with
more than 2 columns (entityset.py lines 102-110): when the weights argument
names a column, the code builds `entity.columns.drop(weights)[[level1,
level2]]` — it first drops the weight column and then indexes positions
`level1` and `level2` of the REMAINING columns — and appends the weight
column; otherwise it takes `entity.columns[[level1, level2]]` directly. -/
def selectColumns (cols : List String) (weights : Option String)
    (level1 level2 : Nat) : List String :=
  if 2 < cols.length then
    match weights with
    | some w =>
        if w ∈ cols then
          [(cols.filter (fun c => c ≠ w)).getD level1 "",
           (cols.filter (fun c => c ≠ w)).getD level2 "", w]
        else [cols.getD level1 "", cols.getD level2 ""]
    | none => [cols.getD level1 "", cols.getD level2 ""]
  else cols

/-- Restriction of the DataFrame to the selected columns (`entity[columns]`,
entityset.py line 110); a frame with at most 2 columns is left untouched. -/
def restrictFrame (f : Frame) (weights : Option String) (level1 level2 : Nat) : Frame :=
  if 2 < f.cols.length then
    { cols := selectColumns f.cols weights level1 level2,
      rows := f.rows.map (fun r =>
        (selectColumns f.cols weights level1 level2).map (valueAt f.cols r)) }
  else f

/-- An existing `Entity` as the constructor sees it: its dataframe and its
`_cell_weight_col`, the name of the column holding the current cell
weights. -/
structure SourceEntity where
  frame : Frame
  cellWeightCol : String

/-- The two entity-argument kinds relevant to the preprocessing phase. -/
inductive ESInput
  | entity (e : SourceEntity)
  | frame (f : Frame)

/-- The input-preprocessing phase of `EntitySet.__init__` (entityset.py lines
94-110): when the entity argument is an `Entity` and `keep_weights` is set,
the weights argument is replaced by the source's cell-weight column name and
the source's dataframe is taken in its place; then a frame with more than 2
columns is restricted.  Returns the frame handed to the `Entity` base
constructor together with the effective weights argument. -/
def initPreprocess (input : ESInput) (weights : Option String) (keepWeights : Bool)
    (level1 level2 : Nat) : Frame × Option String :=
  match input with
  | .entity e =>
      let w := if keepWeights then some e.cellWeightCol else weights
      (restrictFrame e.frame w level1 level2, w)
  | .frame f => (restrictFrame f weights level1 level2, weights)

/-- The values of one column of a frame, row by row: for the weight column,
these are the cell weights the base constructor will resolve. -/
def colValues (f : Frame) (c : String) : List String :=
  f.rows.map (fun r => valueAt f.cols r c)

theorem valueAt_map_cols (cols r newCols : List String) (w : String) (hw : w ∈ newCols) :
    valueAt newCols (newCols.map (valueAt cols r)) w = valueAt cols r w := by
  unfold valueAt
  exact getD_map_idxOf (fun c => r.getD (idxOf c cols) "") "" newCols w hw

theorem mem_selectColumns_weight (cols : List String) (w : String) (l1 l2 : Nat)
    (hw : w ∈ cols) (hlen : 2 < cols.length) :
    w ∈ selectColumns cols (some w) l1 l2 := by
  simp [selectColumns, hlen, hw]

theorem colValues_restrictFrame_weight (f : Frame) (w : String) (l1 l2 : Nat)
    (hw : w ∈ f.cols) :
    colValues (restrictFrame f (some w) l1 l2) w = colValues f w := by
  rw [restrictFrame]
  by_cases hlen : 2 < f.cols.length
  · rw [if_pos hlen]
    unfold colValues
    simp only [List.map_map]
    apply List.map_congr_left
    intro r _
    exact valueAt_map_cols f.cols r _ w (mem_selectColumns_weight f.cols w l1 l2 hw hlen)
  · rw [if_neg hlen]

/-- Claim C9: when the entity argument is an existing `Entity` (or
`EntitySet`) and `keep_weights=True`, any user-supplied weights argument is
discarded and replaced by the source entity's cell-weight column name before
the table is rebuilt, and that column's values survive the column
restriction, so the new instance inherits the source's existing cell
weights. -/
theorem keep_weights_overrides (e : SourceEntity) (userWeights : Option String)
    (l1 l2 : Nat) (hw : e.cellWeightCol ∈ e.frame.cols) :
    (initPreprocess (.entity e) userWeights true l1 l2).2 = some e.cellWeightCol ∧
    colValues (initPreprocess (.entity e) userWeights true l1 l2).1 e.cellWeightCol =
      colValues e.frame e.cellWeightCol :=
  ⟨rfl, colValues_restrictFrame_weight e.frame e.cellWeightCol l1 l2 hw⟩

theorem keep_weights_overrides_witness :
    ("w" ∈ (Frame.mk ["a", "b", "c", "w"] [["1", "2", "3", "9"]]).cols) ∧
    ((initPreprocess (.entity (SourceEntity.mk
        (Frame.mk ["a", "b", "c", "w"] [["1", "2", "3", "9"]]) "w")) (some "z") true 0 1).2 =
      some "w" ∧
    colValues (initPreprocess (.entity (SourceEntity.mk
        (Frame.mk ["a", "b", "c", "w"] [["1", "2", "3", "9"]]) "w")) (some "z") true 0 1).1 "w" =
      colValues (Frame.mk ["a", "b", "c", "w"] [["1", "2", "3", "9"]]) "w") :=
  ⟨by decide,
   keep_weights_overrides (SourceEntity.mk
     (Frame.mk ["a", "b", "c", "w"] [["1", "2", "3", "9"]]) "w") (some "z") 0 1 (by decide)⟩

/-- Counterexample to claim C5 as stated: with input columns
["w", "A", "B"], the weights argument naming column "w", and the default
active positions level1=0 and level2=1, the claim predicts the data columns
at positions 0 and 1 of the original input, i.e. "w" and "A"; the code first
drops the weight column and indexes what remains, selecting "A" and "B". -/
theorem select_columns_positions_cex :
    selectColumns ["w", "A", "B"] (some "w") 0 1 = ["A", "B", "w"] ∧
    (selectColumns ["w", "A", "B"] (some "w") 0 1).take 2 ≠
      [(["w", "A", "B"] : List String).getD 0 "", (["w", "A", "B"] : List String).getD 1 ""] := by
  decide

/-- Claim C5 (amended): for DataFrame input with more than 2 columns whose
weights argument names one of its columns, construction keeps the columns at
positions `level1` and `level2` of the input's columns AFTER removing the
weight column, followed by the weight column itself (so the weight column is
preserved through the projection); when the weight column occurs at a
position after both `level1` and `level2`, those are the same columns that
the positions denote in the original input. -/
theorem select_columns_after_weight_removal (pre suf : List String) (w : String)
    (l1 l2 : Nat) (hpre : ∀ x ∈ pre, x ≠ w) (h1 : l1 < pre.length) (h2 : l2 < pre.length)
    (hlen : 2 < (pre ++ w :: suf).length) :
    selectColumns (pre ++ w :: suf) (some w) l1 l2 =
      [(pre ++ w :: suf).getD l1 "", (pre ++ w :: suf).getD l2 "", w] ∧
    w ∈ selectColumns (pre ++ w :: suf) (some w) l1 l2 := by
  have hwmem : w ∈ pre ++ w :: suf := List.mem_append_right _ (List.mem_cons_self _ _)
  have hpre' : pre.filter (fun c => c ≠ w) = pre :=
    List.filter_eq_self.mpr (fun a ha => by simpa using hpre a ha)
  have hfil : (pre ++ w :: suf).filter (fun c => c ≠ w) =
      pre ++ suf.filter (fun c => c ≠ w) := by
    rw [List.filter_append, hpre', List.filter_cons]
    simp
  have hsel : selectColumns (pre ++ w :: suf) (some w) l1 l2 =
      [(pre ++ w :: suf).getD l1 "", (pre ++ w :: suf).getD l2 "", w] := by
    rw [selectColumns, if_pos hlen]
    simp only [hwmem, if_pos]
    rw [hfil, List.getD_append _ _ _ _ h1, List.getD_append _ _ _ _ h2,
      List.getD_append _ _ _ _ h1, List.getD_append _ _ _ _ h2]
  exact ⟨hsel, by rw [hsel]; simp⟩

theorem select_columns_after_weight_removal_witness :
    (∀ x ∈ (["A", "B", "C"] : List String), x ≠ "w") ∧ (0 < 3) ∧ (1 < 3) ∧
    (2 < ((["A", "B", "C"] : List String) ++ "w" :: []).length) ∧
    (selectColumns ((["A", "B", "C"] : List String) ++ "w" :: []) (some "w") 0 1 =
      [((["A", "B", "C"] : List String) ++ "w" :: []).getD 0 "",
       ((["A", "B", "C"] : List String) ++ "w" :: []).getD 1 "", "w"] ∧
    "w" ∈ selectColumns ((["A", "B", "C"] : List String) ++ "w" :: []) (some "w") 0 1) :=
  ⟨by decide, by decide, by decide, by decide,
   select_columns_after_weight_removal ["A", "B", "C"] [] "w" 0 1 (by decide)
     (by decide) (by decide) (by decide)⟩
